import Mathlib

/-!
Shallow embedding of the MeshSwarm distributed state & coordination engine
(`src/MeshSwarm/src/MeshSwarm.cpp`, `src/MeshSwarm/src/MeshSwarm.h`).

The shared state map `std::map<String, StateEntry>` is embedded as an
association list with unique-key insert; times (`millis()`) are `Nat`;
watcher callbacks are modelled by the list of notification events a call
emits (one event per `triggerWatchers` invocation, which fires first the
key-specific and then the wildcard callbacks with the same arguments);
mesh broadcasts and HTTP telemetry pushes are likewise modelled as emitted
effects.  `unsigned long` (32-bit on the ESP32 target) subtraction is
embedded as subtraction modulo 2^32, and the `uint32_t` version counter's
increment in `setState` as addition modulo 2^32.
-/

namespace MeshSwarm

/-- `StateEntry` from MeshSwarm.h: value, per-key version counter, origin
node id, and the (diagnostic-only) local write time. -/
structure StateEntry where
  value : String
  version : Nat
  origin : Nat
  timestamp : Nat
deriving Repr, DecidableEq

/-- Decoded payload of a `STATE_SET` message, with the decoding defaults of
`handleStateSet` already applied (`data["k"] | ""`, `data["v"] | ""`,
`data["ver"] | 0`, `data["org"] | from`): an absent key decodes to `""`. -/
structure StateSetMsg where
  k : String
  v : String
  ver : Nat
  org : Nat
deriving Repr, DecidableEq

/-- One `triggerWatchers(key, value, oldValue)` invocation: the argument
triple passed to every key-specific and wildcard watcher callback. -/
structure WatchEvent where
  key : String
  value : String
  oldValue : String
deriving Repr, DecidableEq

/-- The `sharedState` map, as an association list with unique keys. -/
abbrev StateMap := List (String × StateEntry)

/-- Lookup in the shared state map (`sharedState.count(key)` /
`sharedState[key]` read access). -/
def lookupState : StateMap → String → Option StateEntry
  | [], _ => none
  | (k2, e) :: rest, k => if k2 = k then some e else lookupState rest k

/-- Store into the shared state map (`sharedState[key] = entry`): replaces
the entry for the key if present, otherwise appends a fresh one. -/
def insertState : StateMap → String → StateEntry → StateMap
  | [], k, e => [(k, e)]
  | (k2, e2) :: rest, k, e =>
      if k2 = k then (k, e) :: rest else (k2, e2) :: insertState rest k e

/-- The acceptance test of `handleStateSet` against an existing entry:
accept iff `version > existing.version`, or `version == existing.version`
and `origin < existing.origin`. -/
def shouldUpdateEntry (msg : StateSetMsg) (existing : StateEntry) : Bool :=
  if msg.ver > existing.version then true
  else if msg.ver = existing.version ∧ msg.org < existing.origin then true
  else false

/-- `MeshSwarm::handleStateSet`: drop the message if the key is empty;
otherwise compute `shouldUpdate` (always true when no entry exists) and
the old value (`""` when no entry exists), and apply the update — storing
`{value, version, origin, now}` and firing watchers — only when
`shouldUpdate && oldValue != value`.  Returns the new map and the watcher
events fired. -/
def handleStateSet (now : Nat) (m : StateMap) (msg : StateSetMsg) :
    StateMap × List WatchEvent :=
  if msg.k.length = 0 then (m, [])
  else
    let existing := lookupState m msg.k
    let su : Bool :=
      match existing with
      | none => true
      | some e => shouldUpdateEntry msg e
    let oldValue : String :=
      match existing with
      | none => ""
      | some e => e.value
    if su = true ∧ oldValue ≠ msg.v then
      (insertState m msg.k ⟨msg.v, msg.ver, msg.org, now⟩,
       [⟨msg.k, msg.v, oldValue⟩])
    else (m, [])

/-- `MeshSwarm::handleStateSync`: apply every entry of the received array
through `handleStateSet`, accumulating the watcher events. -/
def handleStateSync (now : Nat) (m : StateMap) (msgs : List StateSetMsg) :
    StateMap × List WatchEvent :=
  msgs.foldl
    (fun acc msg =>
      let r := handleStateSet now acc.1 msg
      (r.1, acc.2 ++ r.2))
    (m, [])

/-- All observable effects of one `MeshSwarm::setState` call. -/
structure SetStateResult where
  changed : Bool
  state : StateMap
  events : List WatchEvent
  broadcasts : List StateSetMsg
  telemetryPushed : Bool
deriving Repr, DecidableEq

/-- `MeshSwarm::setState`: no-op returning `false` when an entry exists
with the same value; otherwise store `{value, newVersion, myId, now}` —
where `newVersion = existing.version + 1` is computed on `uint32_t`, so it
wraps modulo `2^32` (and is `1` for a new key) — fire watchers, broadcast a
`STATE_SET`, and — when telemetry is enabled — immediately push telemetry
(via `pushTelemetry` or `sendTelemetryToGateway`; the code consults no
debounce state). -/
def setState (myId : Nat) (telemetryEnabled : Bool) (now : Nat)
    (m : StateMap) (key value : String) : SetStateResult :=
  match lookupState m key with
  | some existing =>
      if existing.value = value then
        { changed := false, state := m, events := [], broadcasts := [],
          telemetryPushed := false }
      else
        { changed := true
          state := insertState m key
            ⟨value, (existing.version + 1) % 2 ^ 32, myId, now⟩
          events := [⟨key, value, existing.value⟩]
          broadcasts := [⟨key, value, (existing.version + 1) % 2 ^ 32, myId⟩]
          telemetryPushed := telemetryEnabled }
  | none =>
      { changed := true
        state := insertState m key ⟨value, 1, myId, now⟩
        events := [⟨key, value, ""⟩]
        broadcasts := [⟨key, value, 1, myId⟩]
        telemetryPushed := telemetryEnabled }

/-- `STATE_TELEMETRY_MIN_INTERVAL` from MeshSwarm.h ("Min ms between
state-triggered pushes"). -/
def STATE_TELEMETRY_MIN_INTERVAL : Nat := 2000

/-- `HEARTBEAT_INTERVAL` from MeshSwarm.h. -/
def HEARTBEAT_INTERVAL : Nat := 5000

/-- The id-scanning loop of `electCoordinator`: start from `myId` and keep
the lowest id seen in the node list. -/
def foldLowest (a : Nat) (l : List Nat) : Nat :=
  l.foldl (fun low i => if i < low then i else low) a

/-- `MeshSwarm::electCoordinator`: fold the transport's visible node list
starting from `myId`, keeping the lowest id; the role becomes `"COORD"`
exactly when the lowest id is `myId`, else `"PEER"`.  Returns
`(myRole, coordinatorId)`. -/
def electCoordinator (myId : Nat) (nodeList : List Nat) : String × Nat :=
  let lowest := foldLowest myId nodeList
  ((if lowest = myId then "COORD" else "PEER"), lowest)

/-- The role-related node state mutated by `electCoordinator`
(`myRole`, `coordinatorId`). -/
structure RoleState where
  myRole : String
  coordinatorId : Nat
deriving Repr, DecidableEq

/-- Running `electCoordinator` as the state mutation it performs on the
node: overwrite `myRole` and `coordinatorId` with the computed values. -/
def runElection (myId : Nat) (nodeList : List Nat) (_s : RoleState) :
    RoleState :=
  ⟨(electCoordinator myId nodeList).1, (electCoordinator myId nodeList).2⟩

/-- `Peer` from MeshSwarm.h. -/
structure Peer where
  id : Nat
  name : String
  role : String
  lastSeen : Nat
  alive : Bool
deriving Repr, DecidableEq

/-- 32-bit unsigned subtraction `a - b` as computed on `unsigned long`
(32-bit on the ESP32 target), for `a b < 2^32`. -/
def msub32 (a b : Nat) : Nat := (a + 2 ^ 32 - b) % 2 ^ 32

/-- `MeshSwarm::pruneDeadPeers`: erase every peer whose
`now - lastSeen > 15000`. -/
def pruneDeadPeers (now : Nat) (peers : List (Nat × Peer)) :
    List (Nat × Peer) :=
  peers.filter (fun p => decide (¬ msub32 now p.2.lastSeen > 15000))

/-- The heartbeat-related slice of the node state driven by
`MeshSwarm::update`. -/
structure HeartbeatState where
  peers : List (Nat × Peer)
  lastHeartbeat : Nat
deriving Repr, DecidableEq

/-- The heartbeat branch of `MeshSwarm::update`: when
`now - lastHeartbeat >= HEARTBEAT_INTERVAL`, send the heartbeat broadcast,
then immediately run `pruneDeadPeers`, then set `lastHeartbeat = now`.
Returns the new state and whether a heartbeat was broadcast this tick. -/
def heartbeatTick (now : Nat) (s : HeartbeatState) : HeartbeatState × Bool :=
  if msub32 now s.lastHeartbeat ≥ HEARTBEAT_INTERVAL then
    (⟨pruneDeadPeers now s.peers, now⟩, true)
  else (s, false)

/-- A delivered message a node's state store reacts to: a single
`STATE_SET`, or a `STATE_SYNC` carrying an array of entries, each tagged
with the local receive time. -/
inductive Delivery where
  | set (now : Nat) (msg : StateSetMsg)
  | sync (now : Nat) (msgs : List StateSetMsg)
deriving Repr, DecidableEq

/-- The state-map effect of one delivery, routed as in
`MeshSwarm::onReceive`. -/
def applyDelivery (m : StateMap) : Delivery → StateMap
  | .set now msg => (handleStateSet now m msg).1
  | .sync now msgs => (handleStateSync now m msgs).1

/-- The state-map effect of a sequence of deliveries. -/
def applyDeliveries (m : StateMap) (ds : List Delivery) : StateMap :=
  ds.foldl applyDelivery m

/-- The `STATE_SET` payloads a delivery carries. -/
def deliveryMsgs : Delivery → List StateSetMsg
  | .set _ msg => [msg]
  | .sync _ msgs => msgs

/-- All payloads carried by a delivery sequence, in order. -/
def deliveredMsgs (ds : List Delivery) : List StateSetMsg :=
  (ds.map deliveryMsgs).flatten

/-- A delivery flattened to its timed single-update steps. -/
def deliveryTimed : Delivery → List (Nat × StateSetMsg)
  | .set t msg => [(t, msg)]
  | .sync t msgs => msgs.map (fun msg => (t, msg))

/-- Apply a sequence of timed single `STATE_SET` updates. -/
def applyMsgs (m : StateMap) (σ : List (Nat × StateSetMsg)) : StateMap :=
  σ.foldl (fun acc tm => (handleStateSet tm.1 acc tm.2).1) m

/-- One state-store operation a node can perform: a local `setState` call
or a received `STATE_SET` application. -/
inductive MeshOp where
  | localSet (telemetryEnabled : Bool) (now : Nat) (key value : String)
  | remoteSet (now : Nat) (msg : StateSetMsg)
deriving Repr, DecidableEq

/-- The state-map effect of one operation. -/
def applyOp (myId : Nat) (m : StateMap) : MeshOp → StateMap
  | .localSet tel now key value => (setState myId tel now m key value).state
  | .remoteSet now msg => (handleStateSet now m msg).1

/-- The state-map effect of a sequence of operations. -/
def runOps (myId : Nat) (m : StateMap) (ops : List MeshOp) : StateMap :=
  ops.foldl (applyOp myId) m

/-- Number of local `setState` calls targeting key `k` in an operation
sequence; each one bumps that key's stored version by one modulo `2^32`. -/
def countLocalK (k : String) : List MeshOp → Nat
  | [] => 0
  | .localSet _ _ key _ :: rest =>
      (if key = k then 1 else 0) + countLocalK k rest
  | .remoteSet _ _ :: rest => countLocalK k rest

/-- Versions carried by the received `STATE_SET` messages targeting key
`k` in an operation sequence. -/
def remoteVersK (k : String) : List MeshOp → List Nat
  | [] => []
  | .localSet _ _ _ _ :: rest => remoteVersK k rest
  | .remoteSet _ msg :: rest =>
      (if msg.k = k then [msg.ver] else []) ++ remoteVersK k rest

/-- The incoming tuple strictly beats the stored one in the
`(version, −origin)` order (exactly the `shouldUpdate` test against an
existing entry). -/
def msgBeatsEntry (u : StateSetMsg) (e : StateEntry) : Prop :=
  e.version < u.ver ∨ (u.ver = e.version ∧ u.org < e.origin)

/-- The stored tuple is at least the message's in the `(version, −origin)`
order. -/
def entryGeMsg (e : StateEntry) (u : StateSetMsg) : Prop :=
  u.ver < e.version ∨ (u.ver = e.version ∧ e.origin ≤ u.org)

/-- `(version, −origin)` comparison between two entries. -/
def entryGe (a b : StateEntry) : Prop :=
  b.version < a.version ∨ (a.version = b.version ∧ a.origin ≤ b.origin)

instance (u : StateSetMsg) (e : StateEntry) : Decidable (msgBeatsEntry u e) := by
  unfold msgBeatsEntry; infer_instance

instance (e : StateEntry) (u : StateSetMsg) : Decidable (entryGeMsg e u) := by
  unfold entryGeMsg; infer_instance

instance (a b : StateEntry) : Decidable (entryGe a b) := by
  unfold entryGe; infer_instance

/-- The projection of an entry compared by the convergence property. -/
def projEntry (e : StateEntry) : String × Nat × Nat :=
  (e.value, e.version, e.origin)

/-- `n` successive applications of the same `STATE_SET` message at the same
receive time. -/
def applyNTimes (now : Nat) (msg : StateSetMsg) (m : StateMap) :
    Nat → StateMap
  | 0 => m
  | n + 1 => (handleStateSet now (applyNTimes now msg m n) msg).1

/-- Hypotheses on a set of updates for key `k` under which the protocol is
a pure last-writer-wins fold: every update targets `k`, carries a
non-empty value, and the updates are distinguished both by their
`(version, origin)` pair and by their value. -/
def GoodUpdates (k : String) (U : List StateSetMsg) : Prop :=
  (∀ u ∈ U, u.k = k) ∧ (∀ u ∈ U, u.v ≠ "") ∧
  (∀ u ∈ U, ∀ w ∈ U, u.ver = w.ver → u.org = w.org → u = w) ∧
  (∀ u ∈ U, ∀ w ∈ U, u.v = w.v → u = w)

instance (k : String) (U : List StateSetMsg) : Decidable (GoodUpdates k U) := by
  unfold GoodUpdates; infer_instance

/-- A node's entry for key `k` after processing the updates `P` (whose
key-`k` members are drawn from `U`): either no key-`k` update was
processed and no entry exists, or the entry carries the data of some
processed update and dominates every processed key-`k` update in the
`(version, −origin)` order. -/
def ConvInv (k : String) (U : List StateSetMsg) (m : StateMap)
    (P : List StateSetMsg) : Prop :=
  (lookupState m k = none ∧ ∀ u ∈ P, u.k ≠ k) ∨
  (∃ e u0, lookupState m k = some e ∧ u0 ∈ P ∧ u0 ∈ U ∧ u0.k = k ∧
    e.value = u0.v ∧ e.version = u0.ver ∧ e.origin = u0.org ∧
    ∀ u ∈ P, u.k = k → entryGeMsg e u)

/-! ### Association-list lemmas -/

theorem lookupState_insertState_self (m : StateMap) (k : String)
    (e : StateEntry) : lookupState (insertState m k e) k = some e := by
  induction m with
  | nil => simp [insertState, lookupState]
  | cons hd tl ih =>
      obtain ⟨k2, e2⟩ := hd
      by_cases h : k2 = k
      · subst h; simp [insertState, lookupState]
      · simp [insertState, lookupState, h, ih]

theorem lookupState_insertState_ne (m : StateMap) (k k' : String)
    (e : StateEntry) (h : k ≠ k') :
    lookupState (insertState m k e) k' = lookupState m k' := by
  induction m with
  | nil => simp [insertState, lookupState, h]
  | cons hd tl ih =>
      obtain ⟨k2, e2⟩ := hd
      by_cases h2 : k2 = k
      · subst h2; simp [insertState, lookupState, h]
      · simp [insertState, lookupState, h2, ih]

/-! ### Branch lemmas for `handleStateSet` -/

theorem shouldUpdateEntry_eq_true_iff (msg : StateSetMsg) (e : StateEntry) :
    shouldUpdateEntry msg e = true ↔ msgBeatsEntry msg e := by
  unfold shouldUpdateEntry msgBeatsEntry
  split_ifs with h1 h2 <;> simp <;> omega

theorem handleStateSet_empty_key (now : Nat) (m : StateMap)
    (msg : StateSetMsg) (hk : msg.k.length = 0) :
    handleStateSet now m msg = (m, []) := by
  unfold handleStateSet
  rw [if_pos hk]

theorem handleStateSet_new_key_applied (now : Nat) (m : StateMap)
    (msg : StateSetMsg) (hk : msg.k.length ≠ 0)
    (hnone : lookupState m msg.k = none) (hv : msg.v ≠ "") :
    handleStateSet now m msg =
      (insertState m msg.k ⟨msg.v, msg.ver, msg.org, now⟩,
       [⟨msg.k, msg.v, ""⟩]) := by
  unfold handleStateSet
  rw [if_neg hk, hnone]
  exact if_pos ⟨rfl, fun h => hv h.symm⟩

theorem handleStateSet_new_key_empty_value (now : Nat) (m : StateMap)
    (msg : StateSetMsg) (hnone : lookupState m msg.k = none)
    (hv : msg.v = "") : handleStateSet now m msg = (m, []) := by
  unfold handleStateSet
  by_cases hk : msg.k.length = 0
  · rw [if_pos hk]
  · rw [if_neg hk, hnone]
    exact if_neg (by simp [hv])

theorem handleStateSet_applied (now : Nat) (m : StateMap) (msg : StateSetMsg)
    (e : StateEntry) (hk : msg.k.length ≠ 0)
    (hsome : lookupState m msg.k = some e) (hb : msgBeatsEntry msg e)
    (hv : e.value ≠ msg.v) :
    handleStateSet now m msg =
      (insertState m msg.k ⟨msg.v, msg.ver, msg.org, now⟩,
       [⟨msg.k, msg.v, e.value⟩]) := by
  unfold handleStateSet
  rw [if_neg hk, hsome]
  exact if_pos ⟨(shouldUpdateEntry_eq_true_iff msg e).mpr hb, hv⟩

theorem handleStateSet_skip_same_value (now : Nat) (m : StateMap)
    (msg : StateSetMsg) (e : StateEntry)
    (hsome : lookupState m msg.k = some e) (hv : e.value = msg.v) :
    handleStateSet now m msg = (m, []) := by
  unfold handleStateSet
  by_cases hk : msg.k.length = 0
  · rw [if_pos hk]
  · rw [if_neg hk, hsome]
    exact if_neg (by simp [hv])

theorem handleStateSet_skip_stale (now : Nat) (m : StateMap)
    (msg : StateSetMsg) (e : StateEntry)
    (hsome : lookupState m msg.k = some e) (hb : ¬ msgBeatsEntry msg e) :
    handleStateSet now m msg = (m, []) := by
  unfold handleStateSet
  by_cases hk : msg.k.length = 0
  · rw [if_pos hk]
  · rw [if_neg hk, hsome]
    refine if_neg ?_
    rintro ⟨hsu, -⟩
    exact hb ((shouldUpdateEntry_eq_true_iff msg e).mp hsu)

theorem handleStateSet_state_cases (now : Nat) (m : StateMap)
    (msg : StateSetMsg) :
    (handleStateSet now m msg).1 = m ∨
    (handleStateSet now m msg).1 =
      insertState m msg.k ⟨msg.v, msg.ver, msg.org, now⟩ := by
  unfold handleStateSet
  by_cases hk : msg.k.length = 0
  · rw [if_pos hk]; exact Or.inl rfl
  · rw [if_neg hk]
    dsimp only
    split
    · exact Or.inr rfl
    · exact Or.inl rfl

theorem handleStateSet_lookup_frame (now : Nat) (m : StateMap)
    (msg : StateSetMsg) (k : String) (h : msg.k ≠ k) :
    lookupState (handleStateSet now m msg).1 k = lookupState m k := by
  rcases handleStateSet_state_cases now m msg with hc | hc <;> rw [hc]
  exact lookupState_insertState_ne m msg.k k _ h

/-! ### Re-application is a no-op (idempotence core) -/

theorem handleStateSet_reapply (now now' : Nat) (m : StateMap)
    (msg : StateSetMsg) :
    handleStateSet now' (handleStateSet now m msg).1 msg =
      ((handleStateSet now m msg).1, []) := by
  by_cases hk : msg.k.length = 0
  · rw [handleStateSet_empty_key now m msg hk]
    exact handleStateSet_empty_key now' m msg hk
  · cases hlk : lookupState m msg.k with
    | none =>
        by_cases hv : msg.v = ""
        · rw [handleStateSet_new_key_empty_value now m msg hlk hv]
          exact handleStateSet_new_key_empty_value now' m msg hlk hv
        · rw [handleStateSet_new_key_applied now m msg hk hlk hv]
          refine handleStateSet_skip_stale now' _ msg
            ⟨msg.v, msg.ver, msg.org, now⟩
            (lookupState_insertState_self m msg.k _) ?_
          unfold msgBeatsEntry
          dsimp only
          omega
    | some e =>
        by_cases hb : msgBeatsEntry msg e
        · by_cases hv : e.value = msg.v
          · rw [handleStateSet_skip_same_value now m msg e hlk hv]
            exact handleStateSet_skip_same_value now' m msg e hlk hv
          · rw [handleStateSet_applied now m msg e hk hlk hb hv]
            refine handleStateSet_skip_stale now' _ msg
              ⟨msg.v, msg.ver, msg.org, now⟩
              (lookupState_insertState_self m msg.k _) ?_
            unfold msgBeatsEntry
            dsimp only
            omega
        · rw [handleStateSet_skip_stale now m msg e hlk hb]
          exact handleStateSet_skip_stale now' m msg e hlk hb

/-! ### `(version, −origin)` order lemmas -/

theorem entryGe_refl (a : StateEntry) : entryGe a a := by
  unfold entryGe; omega

theorem entryGe_trans {a b c : StateEntry} (h1 : entryGe a b)
    (h2 : entryGe b c) : entryGe a c := by
  unfold entryGe at *; omega

/-! ### Stored-tuple monotonicity (per-operation) -/

theorem setState_state_cases (myId : Nat) (tel : Bool) (now : Nat)
    (m : StateMap) (key value : String) :
    (setState myId tel now m key value).state = m ∨
    ∃ ent, (setState myId tel now m key value).state =
      insertState m key ent := by
  unfold setState
  cases lookupState m key with
  | none => exact Or.inr ⟨_, rfl⟩
  | some e =>
      dsimp only
      split
      · exact Or.inl rfl
      · exact Or.inr ⟨_, rfl⟩

theorem setState_lookup_frame (myId : Nat) (tel : Bool) (now : Nat)
    (m : StateMap) (key value : String) (k : String) (h : key ≠ k) :
    lookupState (setState myId tel now m key value).state k =
      lookupState m k := by
  rcases setState_state_cases myId tel now m key value with hc | ⟨ent, hc⟩ <;>
    rw [hc]
  exact lookupState_insertState_ne m key k ent h

theorem runOps_entry_mono_bounded (myId : Nat) (k : String)
    (ops : List MeshOp) :
    ∀ (V : Nat) (m : StateMap) (e : StateEntry),
      lookupState m k = some e → e.version ≤ V →
      (∀ v ∈ remoteVersK k ops, v ≤ V) →
      V + countLocalK k ops < 2 ^ 32 →
      ∃ e', lookupState (runOps myId m ops) k = some e' ∧ entryGe e' e ∧
        e'.version ≤ V + countLocalK k ops := by
  induction ops with
  | nil =>
      intro V m e h hV _ _
      exact ⟨e, h, entryGe_refl e, by omega⟩
  | cons op rest ih =>
      intro V m e h hV hmsgs hnw
      cases op with
      | localSet tel now key value =>
          have hrun : runOps myId m (MeshOp.localSet tel now key value :: rest)
              = runOps myId (setState myId tel now m key value).state rest :=
            rfl
          have hcnt : countLocalK k (MeshOp.localSet tel now key value :: rest)
              = (if key = k then 1 else 0) + countLocalK k rest := rfl
          have hvers : remoteVersK k (MeshOp.localSet tel now key value :: rest)
              = remoteVersK k rest := rfl
          rw [hrun]
          rw [hvers] at hmsgs
          rw [hcnt] at hnw ⊢
          by_cases hkey : key = k
          · subst hkey
            rw [if_pos rfl] at hnw ⊢
            by_cases hv : e.value = value
            · have hstate : (setState myId tel now m key value).state = m := by
                unfold setState
                rw [h]
                dsimp only
                rw [if_pos hv]
              rw [hstate]
              obtain ⟨e', h', hge, hb⟩ := ih (V + 1) m e h (by omega)
                (fun v hv2 => by have := hmsgs v hv2; omega) (by omega)
              exact ⟨e', h', hge, by omega⟩
            · have hmod : (e.version + 1) % 2 ^ 32 = e.version + 1 :=
                Nat.mod_eq_of_lt (by omega)
              have hstate : (setState myId tel now m key value).state =
                  insertState m key
                    ⟨value, (e.version + 1) % 2 ^ 32, myId, now⟩ := by
                unfold setState
                rw [h]
                dsimp only
                rw [if_neg hv]
              rw [hstate]
              obtain ⟨e', h', hge, hb⟩ := ih (V + 1) _ _
                (lookupState_insertState_self m key
                  ⟨value, (e.version + 1) % 2 ^ 32, myId, now⟩)
                (by dsimp only; rw [hmod]; omega)
                (fun v hv2 => by have := hmsgs v hv2; omega) (by omega)
              refine ⟨e', h', ?_, by omega⟩
              have hstep : entryGe
                  (⟨value, (e.version + 1) % 2 ^ 32, myId, now⟩ : StateEntry)
                  e := by
                unfold entryGe
                dsimp only
                rw [hmod]
                omega
              exact entryGe_trans hge hstep
          · rw [if_neg hkey] at hnw ⊢
            have hframe := setState_lookup_frame myId tel now m key value k hkey
            obtain ⟨e', h', hge, hb⟩ := ih V _ _ (by rw [hframe]; exact h) hV
              hmsgs (by omega)
            exact ⟨e', h', hge, by omega⟩
      | remoteSet t msg =>
          have hrun : runOps myId m (MeshOp.remoteSet t msg :: rest)
              = runOps myId (handleStateSet t m msg).1 rest := rfl
          have hcnt : countLocalK k (MeshOp.remoteSet t msg :: rest)
              = countLocalK k rest := rfl
          have hvers : remoteVersK k (MeshOp.remoteSet t msg :: rest)
              = (if msg.k = k then [msg.ver] else []) ++ remoteVersK k rest :=
            rfl
          rw [hrun]
          rw [hvers] at hmsgs
          rw [hcnt] at hnw ⊢
          have hmsgs' : ∀ v ∈ remoteVersK k rest, v ≤ V := fun v hv2 =>
            hmsgs v (List.mem_append_right _ hv2)
          by_cases hkey : msg.k = k
          · have hverle : msg.ver ≤ V := hmsgs msg.ver (by simp [hkey])
            subst hkey
            by_cases hklen : msg.k.length = 0
            · rw [handleStateSet_empty_key t m msg hklen]
              exact ih V m e h hV hmsgs' hnw
            · by_cases hbt : msgBeatsEntry msg e
              · by_cases hveq : e.value = msg.v
                · rw [handleStateSet_skip_same_value t m msg e h hveq]
                  exact ih V m e h hV hmsgs' hnw
                · rw [handleStateSet_applied t m msg e hklen h hbt hveq]
                  obtain ⟨e', h', hge, hb⟩ := ih V _ _
                    (lookupState_insertState_self m msg.k
                      ⟨msg.v, msg.ver, msg.org, t⟩)
                    (by dsimp only; exact hverle) hmsgs' hnw
                  refine ⟨e', h', ?_, hb⟩
                  have hstep : entryGe
                      (⟨msg.v, msg.ver, msg.org, t⟩ : StateEntry) e := by
                    unfold msgBeatsEntry at hbt
                    unfold entryGe
                    dsimp only
                    omega
                  exact entryGe_trans hge hstep
              · rw [handleStateSet_skip_stale t m msg e h hbt]
                exact ih V m e h hV hmsgs' hnw
          · have hframe := handleStateSet_lookup_frame t m msg k hkey
            exact ih V _ _ (by rw [hframe]; exact h) hV hmsgs' hnw

/-! ### Convergence invariant -/

theorem ConvInv_step (k : String) (hk : k.length ≠ 0) (U : List StateSetMsg)
    (hU : GoodUpdates k U) (m : StateMap) (P : List StateSetMsg)
    (hinv : ConvInv k U m P) (t : Nat) (x : StateSetMsg)
    (hx : x.k = k → x ∈ U) :
    ConvInv k U (handleStateSet t m x).1 (P ++ [x]) := by
  obtain ⟨hUk, hUv, hUdist, hUvals⟩ := hU
  by_cases hxk : x.k = k
  · have hxU : x ∈ U := hx hxk
    have hxv : x.v ≠ "" := hUv x hxU
    have hklen : x.k.length ≠ 0 := by rw [hxk]; exact hk
    rcases hinv with ⟨hnone, hnok⟩ |
      ⟨e, u0, hle, hu0P, hu0U, hu0k, hev, hever, heorg, hgeall⟩
    · have hnone' : lookupState m x.k = none := by rw [hxk]; exact hnone
      rw [handleStateSet_new_key_applied t m x hklen hnone' hxv]
      refine Or.inr ⟨⟨x.v, x.ver, x.org, t⟩, x, ?_, ?_, hxU, hxk,
        rfl, rfl, rfl, ?_⟩
      · rw [← hxk]
        exact lookupState_insertState_self m x.k _
      · simp
      · intro u hu huk
        rcases List.mem_append.mp hu with huP | hux
        · exact absurd huk (hnok u huP)
        · have hux' : u = x := by simpa using hux
          subst hux'
          unfold entryGeMsg; dsimp only; omega
    · have hle' : lookupState m x.k = some e := by rw [hxk]; exact hle
      by_cases hb : msgBeatsEntry x e
      · have hvne : e.value ≠ x.v := by
          intro hveq
          have hvv : u0.v = x.v := by rw [← hev]; exact hveq
          have hux : u0 = x := hUvals u0 hu0U x hxU hvv
          subst hux
          unfold msgBeatsEntry at hb
          omega
        rw [handleStateSet_applied t m x e hklen hle' hb hvne]
        refine Or.inr ⟨⟨x.v, x.ver, x.org, t⟩, x, ?_, ?_, hxU, hxk,
          rfl, rfl, rfl, ?_⟩
        · rw [← hxk]
          exact lookupState_insertState_self m x.k _
        · simp
        · intro u hu huk
          rcases List.mem_append.mp hu with huP | hux
          · have hge := hgeall u huP huk
            unfold msgBeatsEntry at hb
            unfold entryGeMsg at hge ⊢
            dsimp only
            omega
          · have hux' : u = x := by simpa using hux
            subst hux'
            unfold entryGeMsg; dsimp only; omega
      · rw [handleStateSet_skip_stale t m x e hle' hb]
        refine Or.inr ⟨e, u0, hle, List.mem_append_left _ hu0P, hu0U, hu0k,
          hev, hever, heorg, ?_⟩
        intro u hu huk
        rcases List.mem_append.mp hu with huP | hux
        · exact hgeall u huP huk
        · have hux' : u = x := by simpa using hux
          subst hux'
          unfold msgBeatsEntry at hb
          unfold entryGeMsg
          omega
  · have hframe := handleStateSet_lookup_frame t m x k hxk
    rcases hinv with ⟨hnone, hnok⟩ |
      ⟨e, u0, hle, hu0P, hu0U, hu0k, hev, hever, heorg, hgeall⟩
    · refine Or.inl ⟨by rw [hframe]; exact hnone, ?_⟩
      intro u hu
      rcases List.mem_append.mp hu with huP | hux
      · exact hnok u huP
      · have hux' : u = x := by simpa using hux
        subst hux'; exact hxk
    · refine Or.inr ⟨e, u0, by rw [hframe]; exact hle,
        List.mem_append_left _ hu0P, hu0U, hu0k, hev, hever, heorg, ?_⟩
      intro u hu huk
      rcases List.mem_append.mp hu with huP | hux
      · exact hgeall u huP huk
      · have hux' : u = x := by simpa using hux
        subst hux'; exact absurd huk hxk

theorem ConvInv_fold (k : String) (hk : k.length ≠ 0) (U : List StateSetMsg)
    (hU : GoodUpdates k U) (σ : List (Nat × StateSetMsg)) :
    ∀ (m : StateMap) (P : List StateSetMsg),
      ConvInv k U m P →
      (∀ u ∈ σ.map Prod.snd, u.k = k → u ∈ U) →
      ConvInv k U (applyMsgs m σ) (P ++ σ.map Prod.snd) := by
  induction σ with
  | nil =>
      intro m P hinv _
      simpa [applyMsgs] using hinv
  | cons hd tl ih =>
      intro m P hinv hσ
      have hstep := ConvInv_step k hk U hU m P hinv hd.1 hd.2
        (fun h => hσ hd.2 (by simp) h)
      have hrest := ih (handleStateSet hd.1 m hd.2).1 (P ++ [hd.2]) hstep
        (fun u hu huk =>
          hσ u (by simp only [List.map_cons, List.mem_cons]; exact Or.inr hu)
            huk)
      have happ : applyMsgs m (hd :: tl) =
          applyMsgs (handleStateSet hd.1 m hd.2).1 tl := rfl
      have hP : P ++ (hd :: tl).map Prod.snd =
          (P ++ [hd.2]) ++ tl.map Prod.snd := by simp
      rw [happ, hP]
      exact hrest

theorem convergence_node (k : String) (hk : k.length ≠ 0)
    (U : List StateSetMsg) (hU : GoodUpdates k U) (hne : U ≠ [])
    (σ : List (Nat × StateSetMsg)) (m : StateMap)
    (hm : lookupState m k = none)
    (h1 : ∀ u ∈ σ.map Prod.snd, u.k = k → u ∈ U)
    (h2 : ∀ u ∈ U, u ∈ σ.map Prod.snd) :
    ∃ e u0, lookupState (applyMsgs m σ) k = some e ∧ u0 ∈ U ∧
      e.value = u0.v ∧ e.version = u0.ver ∧ e.origin = u0.org ∧
      ∀ u ∈ U, entryGeMsg e u := by
  have hinv0 : ConvInv k U m [] := Or.inl ⟨hm, by simp⟩
  have h := ConvInv_fold k hk U hU σ m [] hinv0 h1
  rw [List.nil_append] at h
  rcases h with ⟨hnone, hnok⟩ |
    ⟨e, u0, hle, hu0P, hu0U, hu0k, hev, hever, heorg, hgeall⟩
  · obtain ⟨w, hw⟩ := List.exists_mem_of_ne_nil U hne
    exact absurd (hU.1 w hw) (hnok w (h2 w hw))
  · exact ⟨e, u0, hle, hu0U, hev, hever, heorg,
      fun u hu => hgeall u (h2 u hu) (hU.1 u hu)⟩

/-! ### STATE_SYNC is a fold of STATE_SET steps -/

theorem handleStateSync_state_aux (now : Nat) (msgs : List StateSetMsg) :
    ∀ p : StateMap × List WatchEvent,
      (msgs.foldl (fun acc msg =>
        let r := handleStateSet now acc.1 msg
        (r.1, acc.2 ++ r.2)) p).1 =
      applyMsgs p.1 (msgs.map (fun msg => (now, msg))) := by
  induction msgs with
  | nil => intro p; rfl
  | cons hd tl ih => intro p; exact ih _

theorem handleStateSync_state (now : Nat) (m : StateMap)
    (msgs : List StateSetMsg) :
    (handleStateSync now m msgs).1 =
      applyMsgs m (msgs.map (fun msg => (now, msg))) :=
  handleStateSync_state_aux now msgs (m, [])

theorem applyDelivery_state (m : StateMap) (d : Delivery) :
    applyDelivery m d = applyMsgs m (deliveryTimed d) := by
  cases d with
  | set t msg => rfl
  | sync t msgs => exact handleStateSync_state t m msgs

theorem applyDeliveries_state (ds : List Delivery) :
    ∀ m : StateMap,
      applyDeliveries m ds = applyMsgs m ((ds.map deliveryTimed).flatten) := by
  induction ds with
  | nil => intro m; rfl
  | cons d rest ih =>
      intro m
      have h1 : applyDeliveries m (d :: rest) =
          applyDeliveries (applyDelivery m d) rest := rfl
      rw [h1, ih, applyDelivery_state]
      have h2 : ((d :: rest).map deliveryTimed).flatten =
          deliveryTimed d ++ (rest.map deliveryTimed).flatten := by simp
      rw [h2]
      unfold applyMsgs
      rw [List.foldl_append]

theorem deliveryTimed_map_snd (d : Delivery) :
    (deliveryTimed d).map Prod.snd = deliveryMsgs d := by
  cases d with
  | set t msg => rfl
  | sync t msgs => simp [deliveryTimed, deliveryMsgs]

theorem flatten_timed_map_snd (ds : List Delivery) :
    ((ds.map deliveryTimed).flatten).map Prod.snd = deliveredMsgs ds := by
  induction ds with
  | nil => rfl
  | cons d rest ih =>
      simp only [List.map_cons, List.flatten_cons, List.map_append,
        deliveryTimed_map_snd, ih, deliveredMsgs]

/-! ### Election fold and 32-bit time arithmetic -/

theorem foldLowest_spec (l : List Nat) :
    ∀ a : Nat, foldLowest a l ≤ a ∧ (∀ i ∈ l, foldLowest a l ≤ i) ∧
      (foldLowest a l = a ∨ foldLowest a l ∈ l) := by
  induction l with
  | nil => intro a; exact ⟨Nat.le_refl a, by simp, Or.inl rfl⟩
  | cons hd tl ih =>
      intro a
      obtain ⟨h1, h2, h3⟩ := ih (if hd < a then hd else a)
      have hfold : foldLowest a (hd :: tl) =
          foldLowest (if hd < a then hd else a) tl := rfl
      rw [hfold]
      refine ⟨Nat.le_trans h1 (by split <;> omega), ?_, ?_⟩
      · intro i hi
        rcases List.mem_cons.mp hi with hih | hitl
        · subst hih
          exact Nat.le_trans h1 (by split <;> omega)
        · exact h2 i hitl
      · by_cases hlt : hd < a
        · rw [if_pos hlt] at h3 ⊢
          rcases h3 with he | hm
          · exact Or.inr (by rw [he]; exact List.mem_cons_self hd tl)
          · exact Or.inr (List.mem_cons_of_mem hd hm)
        · rw [if_neg hlt] at h3 ⊢
          rcases h3 with he | hm
          · exact Or.inl he
          · exact Or.inr (List.mem_cons_of_mem hd hm)

theorem msub32_eq_sub (a b : Nat) (h1 : b ≤ a) (h2 : a < 2 ^ 32) :
    msub32 a b = a - b := by
  unfold msub32
  have hp : (2 : Nat) ^ 32 = 4294967296 := by norm_num
  rw [hp] at h2 ⊢
  omega

theorem mem_pruneDeadPeers (now : Nat) (peers : List (Nat × Peer))
    (x : Nat × Peer) :
    x ∈ pruneDeadPeers now peers ↔
      x ∈ peers ∧ ¬ msub32 now x.2.lastSeen > 15000 := by
  unfold pruneDeadPeers
  rw [List.mem_filter, decide_eq_true_eq]

/-! ## Claim theorems -/

/-- Claim C3, counterexample: a `STATE_SET` for a never-seen key whose value
is the empty string is *not* applied — `oldValue` is initialized to `""`, so
the `oldValue != value` guard discards it and no entry is created, contrary
to "always applies the update". -/
theorem new_key_empty_value_counterexample :
    handleStateSet 0 [] ⟨"k", "", 1, 5⟩ = ([], []) ∧
    lookupState (handleStateSet 0 [] ⟨"k", "", 1, 5⟩).1 "k" = none := by
  decide

/-- Claim C3 (amended): for a `STATE_SET` with a non-empty key, *a non-empty
value*, and no local entry for that key, `handleStateSet` always applies the
update: afterwards the node stores exactly `(value, version, origin)`. -/
theorem new_key_always_applied (now : Nat) (m : StateMap) (msg : StateSetMsg)
    (hk : msg.k.length ≠ 0) (hnone : lookupState m msg.k = none)
    (hv : msg.v ≠ "") :
    lookupState (handleStateSet now m msg).1 msg.k =
      some ⟨msg.v, msg.ver, msg.org, now⟩ := by
  rw [handleStateSet_new_key_applied now m msg hk hnone hv]
  exact lookupState_insertState_self m msg.k _

/-- Witness for `new_key_always_applied` at a concrete input. -/
theorem new_key_always_applied_witness :
    (("led".length ≠ 0) ∧ lookupState [] "led" = none ∧ ("on" : String) ≠ "")
    ∧ lookupState (handleStateSet 42 [] ⟨"led", "on", 7, 3⟩).1 "led" =
        some ⟨"on", 7, 3, 42⟩ :=
  ⟨⟨by decide, rfl, by decide⟩,
   new_key_always_applied 42 [] ⟨"led", "on", 7, 3⟩ (by decide) rfl (by decide)⟩

/-- Claim C4: applying the same `STATE_SET{key, value, version, origin}` to
any node state `n ≥ 1` times leaves the node with the same shared-state map
(hence the same stored entry for the key) as applying it exactly once. -/
theorem stateSet_reapply_idempotent (now : Nat) (msg : StateSetMsg)
    (m : StateMap) (n : Nat) (h : 1 ≤ n) :
    applyNTimes now msg m n = applyNTimes now msg m 1 := by
  induction n with
  | zero => omega
  | succ n ih =>
      rcases Nat.eq_zero_or_pos n with h0 | hpos
      · subst h0; rfl
      · have heq := ih hpos
        have h1 : applyNTimes now msg m (n + 1) =
            (handleStateSet now (applyNTimes now msg m n) msg).1 := rfl
        have h2 : applyNTimes now msg m 1 = (handleStateSet now m msg).1 := rfl
        rw [h1, heq, h2, handleStateSet_reapply now now m msg]

/-- Witness for `stateSet_reapply_idempotent` at a concrete input. -/
theorem stateSet_reapply_idempotent_witness :
    1 ≤ 3 ∧ applyNTimes 9 ⟨"led", "on", 2, 6⟩ [] 3 =
      applyNTimes 9 ⟨"led", "on", 2, 6⟩ [] 1 :=
  ⟨by decide, stateSet_reapply_idempotent 9 ⟨"led", "on", 2, 6⟩ [] 3 (by decide)⟩

/-- Claim C5, counterexample: two updates with equal version `2`, origins
`20` and `10`, and the *same value* `"x"`, delivered higher-origin first:
the lower-origin update is discarded by the `oldValue != value` guard, so
the stored entry keeps origin `20` — the lower origin does not win. -/
theorem tie_break_counterexample :
    lookupState
      (applyMsgs [] [(0, ⟨"k", "x", 2, 20⟩), (1, ⟨"k", "x", 2, 10⟩)]) "k" =
      some ⟨"x", 2, 20, 0⟩ := by
  decide

/-- Claim C5 (amended): for two updates to the same (non-empty) key with
equal version, different origins, and *distinct non-empty values*, applied
to a node with no prior entry for the key, the lower-origin update wins in
either arrival order. -/
theorem tie_break_lower_origin_wins (k va vb : String)
    (ver oa ob ta tb : Nat) (m : StateMap) (hk : k.length ≠ 0)
    (hm : lookupState m k = none) (hva : va ≠ "") (hvb : vb ≠ "")
    (hvab : va ≠ vb) (ho : oa < ob) :
    (∃ e, lookupState
        (applyMsgs m [(ta, ⟨k, va, ver, oa⟩), (tb, ⟨k, vb, ver, ob⟩)]) k =
        some e ∧ e.value = va ∧ e.version = ver ∧ e.origin = oa) ∧
    (∃ e, lookupState
        (applyMsgs m [(ta, ⟨k, vb, ver, ob⟩), (tb, ⟨k, va, ver, oa⟩)]) k =
        some e ∧ e.value = va ∧ e.version = ver ∧ e.origin = oa) := by
  constructor
  · have hm1 : (handleStateSet ta m ⟨k, va, ver, oa⟩).1 =
        insertState m k ⟨va, ver, oa, ta⟩ := by
      rw [handleStateSet_new_key_applied ta m ⟨k, va, ver, oa⟩ hk hm hva]
    have hb : ¬ msgBeatsEntry ⟨k, vb, ver, ob⟩ (⟨va, ver, oa, ta⟩ : StateEntry) := by
      unfold msgBeatsEntry
      dsimp only
      omega
    have hm2 : (handleStateSet tb (insertState m k ⟨va, ver, oa, ta⟩)
        ⟨k, vb, ver, ob⟩).1 = insertState m k ⟨va, ver, oa, ta⟩ := by
      rw [handleStateSet_skip_stale tb (insertState m k ⟨va, ver, oa, ta⟩)
        ⟨k, vb, ver, ob⟩ ⟨va, ver, oa, ta⟩
        (lookupState_insertState_self m k ⟨va, ver, oa, ta⟩) hb]
    have happ : applyMsgs m [(ta, ⟨k, va, ver, oa⟩), (tb, ⟨k, vb, ver, ob⟩)] =
        (handleStateSet tb (handleStateSet ta m ⟨k, va, ver, oa⟩).1
          ⟨k, vb, ver, ob⟩).1 := rfl
    refine ⟨⟨va, ver, oa, ta⟩, ?_, rfl, rfl, rfl⟩
    rw [happ, hm1, hm2]
    exact lookupState_insertState_self m k _
  · have hm1 : (handleStateSet ta m ⟨k, vb, ver, ob⟩).1 =
        insertState m k ⟨vb, ver, ob, ta⟩ := by
      rw [handleStateSet_new_key_applied ta m ⟨k, vb, ver, ob⟩ hk hm hvb]
    have hb : msgBeatsEntry ⟨k, va, ver, oa⟩ (⟨vb, ver, ob, ta⟩ : StateEntry) := by
      unfold msgBeatsEntry
      dsimp only
      omega
    have hm2 : (handleStateSet tb (insertState m k ⟨vb, ver, ob, ta⟩)
        ⟨k, va, ver, oa⟩).1 =
        insertState (insertState m k ⟨vb, ver, ob, ta⟩) k ⟨va, ver, oa, tb⟩ := by
      rw [handleStateSet_applied tb (insertState m k ⟨vb, ver, ob, ta⟩)
        ⟨k, va, ver, oa⟩ ⟨vb, ver, ob, ta⟩ hk
        (lookupState_insertState_self m k ⟨vb, ver, ob, ta⟩) hb
        (fun h => hvab h.symm)]
    have happ : applyMsgs m [(ta, ⟨k, vb, ver, ob⟩), (tb, ⟨k, va, ver, oa⟩)] =
        (handleStateSet tb (handleStateSet ta m ⟨k, vb, ver, ob⟩).1
          ⟨k, va, ver, oa⟩).1 := rfl
    refine ⟨⟨va, ver, oa, tb⟩, ?_, rfl, rfl, rfl⟩
    rw [happ, hm1, hm2]
    exact lookupState_insertState_self _ k _

/-- Witness for `tie_break_lower_origin_wins` at a concrete input. -/
theorem tie_break_lower_origin_wins_witness :
    (("led".length ≠ 0) ∧ ("on" : String) ≠ "" ∧ ("off" : String) ≠ "" ∧
     ("on" : String) ≠ "off" ∧ (10 : Nat) < 20) ∧
    ((∃ e, lookupState (applyMsgs []
        [(0, ⟨"led", "on", 2, 10⟩), (1, ⟨"led", "off", 2, 20⟩)]) "led" =
        some e ∧ e.value = "on" ∧ e.version = 2 ∧ e.origin = 10) ∧
     (∃ e, lookupState (applyMsgs []
        [(0, ⟨"led", "off", 2, 20⟩), (1, ⟨"led", "on", 2, 10⟩)]) "led" =
        some e ∧ e.value = "on" ∧ e.version = 2 ∧ e.origin = 10)) :=
  ⟨⟨by decide, by decide, by decide, by decide, by decide⟩,
   tie_break_lower_origin_wins "led" "on" "off" 2 10 20 0 1 [] (by decide)
     rfl (by decide) (by decide) (by decide) (by decide)⟩

/-- Claim C6: `electCoordinator` is a pure function of the node's own id
and the transport's visible node list: the role becomes `"COORD"` exactly
when the own id is minimal in `{self.id} ∪ nodeList` (and `"PEER"` exactly
otherwise), and re-running the election on the same input is idempotent on
the role state. -/
theorem electCoordinator_lowest_id (myId : Nat) (nodeList : List Nat)
    (s : RoleState) :
    ((electCoordinator myId nodeList).1 = "COORD" ↔ ∀ i ∈ nodeList, myId ≤ i) ∧
    ((electCoordinator myId nodeList).1 = "PEER" ↔
      ¬ ∀ i ∈ nodeList, myId ≤ i) ∧
    runElection myId nodeList (runElection myId nodeList s) =
      runElection myId nodeList s := by
  obtain ⟨h1, h2, h3⟩ := foldLowest_spec nodeList myId
  have hchar : foldLowest myId nodeList = myId ↔ ∀ i ∈ nodeList, myId ≤ i := by
    constructor
    · intro he i hi
      have := h2 i hi
      omega
    · intro hall
      rcases h3 with he | hm
      · exact he
      · have := hall _ hm
        omega
  have hrole : (electCoordinator myId nodeList).1 =
      (if foldLowest myId nodeList = myId then "COORD" else "PEER") := rfl
  refine ⟨?_, ?_, rfl⟩
  · rw [hrole]
    by_cases he : foldLowest myId nodeList = myId
    · rw [if_pos he]
      exact ⟨fun _ => hchar.mp he, fun _ => rfl⟩
    · rw [if_neg he]
      constructor
      · intro hc
        exact absurd hc (by decide)
      · intro hall
        exact absurd (hchar.mpr hall) he
  · rw [hrole]
    by_cases he : foldLowest myId nodeList = myId
    · rw [if_pos he]
      constructor
      · intro hc
        exact absurd hc (by decide)
      · intro hnall
        exact absurd (hchar.mp he) hnall
    · rw [if_neg he]
      exact ⟨fun _ hall => he (hchar.mpr hall), fun _ => rfl⟩

/-- Claim C7: `setState(key, v)` on a key whose stored value already equals
`v` returns `false` and has no effect at all: the map is unchanged, no
watcher fires, no `STATE_SET` broadcast is sent, and no telemetry push is
triggered. -/
theorem setState_noop_on_equal_value (myId : Nat) (tel : Bool) (now : Nat)
    (m : StateMap) (key v : String) (e : StateEntry)
    (hlk : lookupState m key = some e) (hv : e.value = v) :
    setState myId tel now m key v =
      { changed := false, state := m, events := [], broadcasts := [],
        telemetryPushed := false } := by
  unfold setState
  rw [hlk]
  dsimp only
  rw [if_pos hv]

/-- Witness for `setState_noop_on_equal_value` at a concrete input. -/
theorem setState_noop_on_equal_value_witness :
    (lookupState [("led", ⟨"on", 3, 9, 100⟩)] "led" = some ⟨"on", 3, 9, 100⟩ ∧
     (⟨"on", 3, 9, 100⟩ : StateEntry).value = "on") ∧
    setState 7 true 500 [("led", ⟨"on", 3, 9, 100⟩)] "led" "on" =
      { changed := false, state := [("led", ⟨"on", 3, 9, 100⟩)], events := [],
        broadcasts := [], telemetryPushed := false } :=
  ⟨⟨by decide, rfl⟩,
   setState_noop_on_equal_value 7 true 500 [("led", ⟨"on", 3, 9, 100⟩)]
     "led" "on" ⟨"on", 3, 9, 100⟩ (by decide) rfl⟩

/-- Claim C8: on a tick where the heartbeat is due, the heartbeat broadcast
happens and the prune step immediately after it removes exactly the peers
whose elapsed time since `lastSeen` exceeds the 15 s liveness timeout;
peers within the timeout are retained (and so remain in `getPeers()`). -/
theorem peer_pruned_after_timeout (now : Nat) (s : HeartbeatState) (i : Nat)
    (p : Peer) (hmem : (i, p) ∈ s.peers) (hlast : p.lastSeen ≤ now)
    (hnow : now < 2 ^ 32)
    (hdue : HEARTBEAT_INTERVAL ≤ msub32 now s.lastHeartbeat) :
    (heartbeatTick now s).2 = true ∧
    (15000 < now - p.lastSeen → (i, p) ∉ (heartbeatTick now s).1.peers) ∧
    (now - p.lastSeen ≤ 15000 → (i, p) ∈ (heartbeatTick now s).1.peers) := by
  have htick : heartbeatTick now s =
      (⟨pruneDeadPeers now s.peers, now⟩, true) := by
    unfold heartbeatTick
    rw [if_pos hdue]
  rw [htick]
  dsimp only
  have hms : msub32 now p.lastSeen = now - p.lastSeen :=
    msub32_eq_sub now p.lastSeen hlast hnow
  refine ⟨rfl, ?_, ?_⟩
  · intro hgt hmem'
    have hpred := ((mem_pruneDeadPeers now s.peers (i, p)).mp hmem').2
    rw [hms] at hpred
    omega
  · intro hle
    refine (mem_pruneDeadPeers now s.peers (i, p)).mpr ⟨hmem, ?_⟩
    rw [hms]
    omega

/-- Witness for `peer_pruned_after_timeout` at a concrete input: a peer
last seen 18 s ago is pruned on the heartbeat tick. -/
theorem peer_pruned_after_timeout_witness :
    ((1, (⟨1, "a", "PEER", 2000, true⟩ : Peer)) ∈
        [(1, (⟨1, "a", "PEER", 2000, true⟩ : Peer))] ∧
     2000 ≤ 20000 ∧ 20000 < 2 ^ 32 ∧
     HEARTBEAT_INTERVAL ≤ msub32 20000 0) ∧
    ((heartbeatTick 20000 ⟨[(1, ⟨1, "a", "PEER", 2000, true⟩)], 0⟩).2 = true ∧
     (15000 < 20000 - 2000 →
       (1, (⟨1, "a", "PEER", 2000, true⟩ : Peer)) ∉
         (heartbeatTick 20000 ⟨[(1, ⟨1, "a", "PEER", 2000, true⟩)], 0⟩).1.peers) ∧
     (20000 - 2000 ≤ 15000 →
       (1, (⟨1, "a", "PEER", 2000, true⟩ : Peer)) ∈
         (heartbeatTick 20000 ⟨[(1, ⟨1, "a", "PEER", 2000, true⟩)], 0⟩).1.peers)) :=
  ⟨⟨by decide, by decide, by decide, by decide⟩,
   peer_pruned_after_timeout 20000 ⟨[(1, ⟨1, "a", "PEER", 2000, true⟩)], 0⟩ 1
     ⟨1, "a", "PEER", 2000, true⟩ (by decide) (by decide) (by decide)
     (by decide)⟩

/-- Claim C9, code evaluated at the failing input: with telemetry enabled,
two successful `setState` calls 1 ms apart both push telemetry immediately —
`setState` consults neither `lastStateTelemetryPush` nor
`STATE_TELEMETRY_MIN_INTERVAL` (both declared for debouncing but unused),
so state-triggered pushes are not debounced. -/
theorem state_telemetry_not_debounced :
    (setState 7 true 1000 [] "k" "a").changed = true ∧
    (setState 7 true 1000 [] "k" "a").telemetryPushed = true ∧
    (setState 7 true 1001 (setState 7 true 1000 [] "k" "a").state
      "k" "b").changed = true ∧
    (setState 7 true 1001 (setState 7 true 1000 [] "k" "a").state
      "k" "b").telemetryPushed = true ∧
    1001 - 1000 < STATE_TELEMETRY_MIN_INTERVAL := by
  decide

/-- Claim C10: a `STATE_SET` whose key decodes to the empty string (absent
or empty `k` field) is discarded whole: the state map is unchanged, no
watcher fires, and no entry is created, for every value/version/origin. -/
theorem empty_key_discarded (now : Nat) (m : StateMap) (v : String)
    (ver org : Nat) :
    handleStateSet now m ⟨"", v, ver, org⟩ = (m, []) :=
  handleStateSet_empty_key now m ⟨"", v, ver, org⟩ rfl

/-- Claim C1, counterexample: the same three-update set delivered to two
nodes in two different orders leaves them with different
`(value, version, origin)` triples for key `"k"` — the `oldValue != value`
guard lets one node skip the version-3 update `("b", 3, 30)` because its
value matches, stranding that node on version 2, after which the orders
diverge even in the stored value. -/
theorem state_convergence_counterexample :
    ([⟨"k", "b", 2, 10⟩, ⟨"k", "b", 3, 30⟩, ⟨"k", "c", 3, 40⟩] :
        List StateSetMsg).Perm
      [⟨"k", "b", 3, 30⟩, ⟨"k", "b", 2, 10⟩, ⟨"k", "c", 3, 40⟩] ∧
    (lookupState (applyMsgs [] [(0, ⟨"k", "b", 2, 10⟩),
        (1, ⟨"k", "b", 3, 30⟩), (2, ⟨"k", "c", 3, 40⟩)]) "k").map projEntry =
      some ("c", 3, 40) ∧
    (lookupState (applyMsgs [] [(0, ⟨"k", "b", 3, 30⟩),
        (1, ⟨"k", "b", 2, 10⟩), (2, ⟨"k", "c", 3, 40⟩)]) "k").map projEntry =
      some ("b", 3, 30) ∧
    (some ("c", 3, 40) : Option (String × Nat × Nat)) ≠ some ("b", 3, 30) := by
  decide

/-- Claim C1 (amended): for a non-empty key and a non-empty update set whose
members carry pairwise-distinct `(version, origin)` pairs and
pairwise-distinct non-empty values, two nodes starting with no entry for the
key that are each delivered (via `handleStateSet` / `handleStateSync`, in
any order, with any duplication) every update of the set — and no key-`k`
update outside it — end up storing the same `(value, version, origin)`
triple for that key. -/
theorem state_convergence_distinct_values (k : String) (hk : k.length ≠ 0)
    (U : List StateSetMsg) (hU : GoodUpdates k U) (hne : U ≠ [])
    (dsA dsB : List Delivery) (mA mB : StateMap)
    (hmA : lookupState mA k = none) (hmB : lookupState mB k = none)
    (hA1 : ∀ u ∈ deliveredMsgs dsA, u.k = k → u ∈ U)
    (hA2 : ∀ u ∈ U, u ∈ deliveredMsgs dsA)
    (hB1 : ∀ u ∈ deliveredMsgs dsB, u.k = k → u ∈ U)
    (hB2 : ∀ u ∈ U, u ∈ deliveredMsgs dsB) :
    ∃ eA eB, lookupState (applyDeliveries mA dsA) k = some eA ∧
      lookupState (applyDeliveries mB dsB) k = some eB ∧
      eA.value = eB.value ∧ eA.version = eB.version ∧
      eA.origin = eB.origin := by
  rw [applyDeliveries_state dsA mA, applyDeliveries_state dsB mB]
  have hA1' : ∀ u ∈ ((dsA.map deliveryTimed).flatten).map Prod.snd,
      u.k = k → u ∈ U := by
    rw [flatten_timed_map_snd]
    exact hA1
  have hA2' : ∀ u ∈ U, u ∈ ((dsA.map deliveryTimed).flatten).map Prod.snd := by
    rw [flatten_timed_map_snd]
    exact hA2
  have hB1' : ∀ u ∈ ((dsB.map deliveryTimed).flatten).map Prod.snd,
      u.k = k → u ∈ U := by
    rw [flatten_timed_map_snd]
    exact hB1
  have hB2' : ∀ u ∈ U, u ∈ ((dsB.map deliveryTimed).flatten).map Prod.snd := by
    rw [flatten_timed_map_snd]
    exact hB2
  obtain ⟨eA, uA, hleA, huAU, hevA, heverA, heorgA, hgeA⟩ :=
    convergence_node k hk U hU hne _ mA hmA hA1' hA2'
  obtain ⟨eB, uB, hleB, huBU, hevB, heverB, heorgB, hgeB⟩ :=
    convergence_node k hk U hU hne _ mB hmB hB1' hB2'
  have hAB := hgeA uB huBU
  have hBA := hgeB uA huAU
  have hver : uA.ver = uB.ver := by
    unfold entryGeMsg at hAB hBA
    omega
  have horg : uA.org = uB.org := by
    unfold entryGeMsg at hAB hBA
    omega
  have huAB : uA = uB := hU.2.2.1 uA huAU uB huBU hver horg
  subst huAB
  refine ⟨eA, eB, hleA, hleB, ?_, ?_, ?_⟩
  · rw [hevA, hevB]
  · rw [heverA, heverB]
  · rw [heorgA, heorgB]

/-- Witness for `state_convergence_distinct_values` at a concrete input:
one node gets a `STATE_SET` then a one-entry `STATE_SYNC`, the other a
single `STATE_SYNC` with both updates in the opposite order. -/
theorem state_convergence_distinct_values_witness :
    ∃ eA eB,
      lookupState (applyDeliveries []
        [.set 0 ⟨"led", "on", 1, 10⟩, .sync 1 [⟨"led", "off", 2, 20⟩]]) "led"
        = some eA ∧
      lookupState (applyDeliveries []
        [.sync 5 [⟨"led", "off", 2, 20⟩, ⟨"led", "on", 1, 10⟩]]) "led"
        = some eB ∧
      eA.value = eB.value ∧ eA.version = eB.version ∧ eA.origin = eB.origin :=
  state_convergence_distinct_values "led" (by decide)
    [⟨"led", "on", 1, 10⟩, ⟨"led", "off", 2, 20⟩] (by decide) (by decide)
    [.set 0 ⟨"led", "on", 1, 10⟩, .sync 1 [⟨"led", "off", 2, 20⟩]]
    [.sync 5 [⟨"led", "off", 2, 20⟩, ⟨"led", "on", 1, 10⟩]]
    [] [] rfl rfl (by decide) (by decide) (by decide) (by decide)

/-- Claim C2, counterexample: applying `("k", "b", 2, 10)` then
`("k", "b", 3, 30)` (same value) leaves the stored entry at version 2
although the node has observed the strictly greater `(3, −30)` tuple —
the stored entry is not the greatest tuple ever observed. -/
theorem stored_tuple_not_greatest_observed :
    lookupState (runOps 1 [] [.remoteSet 0 ⟨"k", "b", 2, 10⟩,
      .remoteSet 1 ⟨"k", "b", 3, 30⟩]) "k" = some ⟨"b", 2, 10, 0⟩ ∧
    msgBeatsEntry ⟨"k", "b", 3, 30⟩ ⟨"b", 2, 10, 0⟩ := by
  decide

/-- The `uint32_t` version counter wraps: a local write on top of version
`2^32 − 1` (reachable by receiving a `STATE_SET` with that version) stores
version `0`, and the stored `(version, −origin)` tuple strictly decreases —
which is why `stored_tuple_monotone` carries a no-wraparound hypothesis. -/
theorem setState_version_wrap :
    (setState 7 false 3 [("k", ⟨"a", 4294967295, 3, 0⟩)] "k" "b").state =
      [("k", ⟨"b", 0, 7, 3⟩)] := by
  decide

/-- Claim C2 (amended): across any sequence of local `setState` calls and
received `STATE_SET` applications in which no version increment wraps the
`uint32_t` counter — every received version for the key is at most `V` and
`V` plus the number of local writes to the key stays below `2^32` — the
stored entry's `(version, −origin)` tuple never decreases, so it is the
numerically greatest tuple the entry has ever *held* (every accepted
write). It is not the greatest tuple ever *observed* (a received update
can be rejected for value-equality despite a greater tuple), and at a
`uint32_t` wrap the stored tuple genuinely decreases
(`setState_version_wrap`). -/
theorem stored_tuple_monotone (myId V : Nat) (m : StateMap)
    (ops : List MeshOp) (k : String) (e : StateEntry)
    (h : lookupState m k = some e) (hV : e.version ≤ V)
    (hmsgs : ∀ v ∈ remoteVersK k ops, v ≤ V)
    (hnw : V + countLocalK k ops < 2 ^ 32) :
    ∃ e', lookupState (runOps myId m ops) k = some e' ∧ entryGe e' e := by
  obtain ⟨e', h', hge, -⟩ :=
    runOps_entry_mono_bounded myId k ops V m e h hV hmsgs hnw
  exact ⟨e', h', hge⟩

/-- Witness for `stored_tuple_monotone` at a concrete input. -/
theorem stored_tuple_monotone_witness :
    (lookupState [("led", ⟨"on", 1, 5, 0⟩)] "led" = some ⟨"on", 1, 5, 0⟩ ∧
     (⟨"on", 1, 5, 0⟩ : StateEntry).version ≤ 9 ∧
     (∀ v ∈ remoteVersK "led"
        [.localSet true 10 "led" "off", .remoteSet 20 ⟨"led", "red", 9, 1⟩],
        v ≤ 9) ∧
     9 + countLocalK "led"
        [.localSet true 10 "led" "off", .remoteSet 20 ⟨"led", "red", 9, 1⟩] <
       2 ^ 32) ∧
    ∃ e', lookupState (runOps 7 [("led", ⟨"on", 1, 5, 0⟩)]
        [.localSet true 10 "led" "off",
         .remoteSet 20 ⟨"led", "red", 9, 1⟩]) "led" = some e' ∧
      entryGe e' ⟨"on", 1, 5, 0⟩ :=
  ⟨⟨by decide, by decide, by decide, by decide⟩,
   stored_tuple_monotone 7 9 [("led", ⟨"on", 1, 5, 0⟩)]
     [.localSet true 10 "led" "off", .remoteSet 20 ⟨"led", "red", 9, 1⟩]
     "led" ⟨"on", 1, 5, 0⟩ (by decide) (by decide) (by decide) (by decide)⟩

end MeshSwarm
